import Mathlib

/-
  Verification of the message-passing graph encoder
  (src/domain/graph_encoder.py of kovanostra/message-passing-nn).

  Shallow embedding conventions:
  * numpy float arrays are idealized as real-valued functions:
    a vector of length F is `ℕ → ℝ` (entries beyond F are irrelevant because
    every reduction sums over `Finset.range F`), a 2-D array is `ℕ → ℕ → ℝ`,
    and the [N, N, F] messages tensor is `ℕ → ℕ → ℕ → ℝ`.
  * The nine GRU weight tensors are indexed exactly as the source indexes
    them: `w[edge_slice]` becomes a function from the (start, end) pair to a
    matrix, and the bias vectors are plain vectors (the source never slices
    the biases).
  * Python `for` loops that mutate an accumulator become `List.foldl`.
  * The classes Graph / Node / Edge / MessageGRU are imported by
    graph_encoder.py but their files are not part of the source tree; they
    are modelled from the specification (doc comments say so explicitly).
-/

namespace MessagePassingNN

noncomputable section

/-- GraphEncoder._sigmoid: np.exp(vector) / (np.exp(vector) + 1), scalar form
(applied elementwise at each feature index). -/
def sigmoid (x : ℝ) : ℝ := Real.exp x / (Real.exp x + 1)

/-- GraphEncoder._tanh: np.tanh, scalar form. -/
def tanh (x : ℝ) : ℝ := Real.tanh x

/-- GraphEncoder._relu: np.maximum(0, vector), scalar form. -/
def relu (x : ℝ) : ℝ := max 0 x

/-- A dense 2-D numpy array: an explicit shape together with its entries. -/
structure NDArray2 where
  rows : ℕ
  cols : ℕ
  entry : ℕ → ℕ → ℝ

/-- The numpy .shape of a 2-D array. -/
def NDArray2.shape (a : NDArray2) : ℕ × ℕ := (a.rows, a.cols)

/-- Modelled from the spec: the Graph view (src/domain/graph.py is absent from
the source tree). It carries `number_of_nodes` (N), `number_of_node_features`
(F), the dense `node_features` matrix [N, F], and, for each node, the ordered
list of its neighbor ids. -/
structure Graph where
  number_of_nodes : ℕ
  number_of_node_features : ℕ
  node_features : NDArray2
  neighbors : ℕ → List ℕ

/-- Modelled from the spec: Node.features (src/domain/node.py is absent from
the source tree): row node_id of graph.node_features. -/
def Graph.features (g : Graph) (node_id : ℕ) : ℕ → ℝ :=
  g.node_features.entry node_id

/-- Modelled from the spec: Node.neighbors_count (src/domain/node.py is absent
from the source tree): the length of the node's neighbor list. -/
def Graph.neighbors_count (g : Graph) (node_id : ℕ) : ℕ :=
  (g.neighbors node_id).length

/-- Modelled from the spec: Edge.get_edge_slice (src/domain/edge.py is absent
from the source tree): the (start_node_id, end_node_id) coordinate pair that
addresses the first two axes of a tensor for this directed edge. -/
def edge_slice (start_node_id end_node_id : ℕ) : ℕ × ℕ :=
  (start_node_id, end_node_id)

/-- Modelled from the spec: the neighbor-id component of
Edge.get_start_node_neighbors_without_end_node (src/domain/edge.py is absent
from the source tree): the ordered subset of the start node's neighbor ids
excluding the end node, computed by a linear filter over the neighbor list.
Indexing the messages tensor with the full returned slice selects the rows
messages[start_node, k, :] for exactly these k, so sums over that slice are
modelled as sums over this list. -/
def start_node_neighbors_without_end_node (g : Graph) (start_node_id end_node_id : ℕ) :
    List ℕ :=
  (g.neighbors start_node_id).filter (fun k => k ≠ end_node_id)

/-- numpy M.dot(v) for a 2-D slice M acting on a vector v, with the inner sum
running over the feature dimension fdim. -/
def matVec (fdim : ℕ) (M : ℕ → ℕ → ℝ) (v : ℕ → ℝ) : ℕ → ℝ :=
  fun r => ∑ k ∈ Finset.range fdim, M r k * v k

/-- Modelled from the spec: the MessageGRU carrier
(src/domain/message_gru.py is absent from the source tree): the three
intermediate fields set by GraphEncoder._get_message_inputs. -/
structure MessageGRU where
  previous_messages : ℕ → ℝ
  update_gate : ℕ → ℝ
  current_memory : ℕ → ℝ

/-- Modelled from the spec: MessageGRU.compose
(src/domain/message_gru.py is absent from the source tree): the composed value
is the GRU interpolation
(1 - update_gate) * previous_messages + update_gate * current_memory,
elementwise; modelled as returning the value the method stores in the
message's value field. -/
def MessageGRU.compose (m : MessageGRU) : ℕ → ℝ :=
  fun f => (1 - m.update_gate f) * m.previous_messages f
    + m.update_gate f * m.current_memory f

/-- The GraphEncoder's fields, in the order __init__ declares them: the
time-step count, the nine GRU tensors (three feature-weight tensors, three
recurrent tensors, three bias vectors) and the two output-layer tensors.
The w and u tensors are accessed through their edge slice, so they are
functions from the (start, end) pair to a matrix; the biases are vectors. -/
structure GraphEncoder where
  time_steps : ℕ
  w_gru_update_gate_features : ℕ × ℕ → ℕ → ℕ → ℝ
  w_gru_forget_gate_features : ℕ × ℕ → ℕ → ℕ → ℝ
  w_gru_current_memory_message_features : ℕ × ℕ → ℕ → ℕ → ℝ
  u_gru_update_gate : ℕ × ℕ → ℕ → ℕ → ℝ
  u_gru_forget_gate : ℕ × ℕ → ℕ → ℕ → ℝ
  u_gru_current_memory_message : ℕ × ℕ → ℕ → ℕ → ℝ
  b_gru_update_gate : ℕ → ℝ
  b_gru_forget_gate : ℕ → ℝ
  b_gru_current_memory_message : ℕ → ℝ
  u_graph_node_features : ℕ → ℕ → ℕ → ℝ
  u_graph_neighbor_messages : ℕ → ℕ → ℕ → ℝ

/-- GraphEncoder._get_messages_from_all_node_neighbors_except_target_summed:
a zero vector of length F, replaced, when the node has more than one neighbor,
by the sum over the start node's neighbors other than the end node of
messages[node, k, :]. -/
def get_messages_from_all_node_neighbors_except_target_summed
    (g : Graph) (messages : ℕ → ℕ → ℕ → ℝ) (node_id end_node_id : ℕ) : ℕ → ℝ :=
  if 1 < g.neighbors_count node_id then
    fun f => ((start_node_neighbors_without_end_node g node_id end_node_id).map
      (fun k => messages node_id k f)).sum
  else
    fun _ => 0

/-- GraphEncoder._pass_through_update_gate:
sigmoid(w_update[edge_slice] . node_features[node] +
u_update[edge_slice] . messages_from_other_neighbors + b_update). -/
def pass_through_update_gate (e : GraphEncoder) (g : Graph)
    (messages : ℕ → ℕ → ℕ → ℝ) (node_id end_node_id : ℕ) : ℕ → ℝ :=
  fun f => sigmoid
    (matVec g.number_of_node_features
        (e.w_gru_update_gate_features (edge_slice node_id end_node_id))
        (g.features node_id) f
      + matVec g.number_of_node_features
        (e.u_gru_update_gate (edge_slice node_id end_node_id))
        (get_messages_from_all_node_neighbors_except_target_summed
          g messages node_id end_node_id) f
      + e.b_gru_update_gate f)

/-- GraphEncoder._pass_through_reset_gate, called with the reset edge
(node, reset_node): sigmoid(w_update[reset_edge_slice] . node_features[node] +
u_update[reset_edge_slice] . messages[reset_edge_slice] + b_update). -/
def pass_through_reset_gate (e : GraphEncoder) (g : Graph)
    (messages : ℕ → ℕ → ℕ → ℝ) (node_id reset_node_id : ℕ) : ℕ → ℝ :=
  fun f => sigmoid
    (matVec g.number_of_node_features
        (e.w_gru_update_gate_features (edge_slice node_id reset_node_id))
        (g.features node_id) f
      + matVec g.number_of_node_features
        (e.u_gru_update_gate (edge_slice node_id reset_node_id))
        (messages node_id reset_node_id) f
      + e.b_gru_update_gate f)

/-- GraphEncoder._keep_or_reset_messages: accumulate, over the start node's
neighbors other than the end node, reset_gate * messages[node, k, :], then
apply u_memory[edge_slice] to the accumulated vector. -/
def keep_or_reset_messages (e : GraphEncoder) (g : Graph)
    (messages : ℕ → ℕ → ℕ → ℝ) (node_id end_node_id : ℕ) : ℕ → ℝ :=
  matVec g.number_of_node_features
    (e.u_gru_current_memory_message (edge_slice node_id end_node_id))
    ((start_node_neighbors_without_end_node g node_id end_node_id).foldl
      (fun acc k => fun f =>
        acc f + pass_through_reset_gate e g messages node_id k f * messages node_id k f)
      (fun _ => 0))

/-- GraphEncoder._get_current_memory_message:
tanh(w_memory[edge_slice] . node_features[node] +
u_memory[edge_slice] . keep_or_reset_messages + b_memory). -/
def get_current_memory_message (e : GraphEncoder) (g : Graph)
    (messages : ℕ → ℕ → ℕ → ℝ) (node_id end_node_id : ℕ) : ℕ → ℝ :=
  fun f => tanh
    (matVec g.number_of_node_features
        (e.w_gru_current_memory_message_features (edge_slice node_id end_node_id))
        (g.features node_id) f
      + matVec g.number_of_node_features
        (e.u_gru_current_memory_message (edge_slice node_id end_node_id))
        (keep_or_reset_messages e g messages node_id end_node_id) f
      + e.b_gru_current_memory_message f)

/-- GraphEncoder._get_message_inputs: fill the three fields of the message
carrier for the directed edge (node, end_node). -/
def get_message_inputs (e : GraphEncoder) (g : Graph)
    (messages : ℕ → ℕ → ℕ → ℝ) (node_id end_node_id : ℕ) : MessageGRU :=
  ⟨get_messages_from_all_node_neighbors_except_target_summed g messages node_id end_node_id,
   pass_through_update_gate e g messages node_id end_node_id,
   get_current_memory_message e g messages node_id end_node_id⟩

/-- The single numpy store new_messages[edge_slice] = value: replace the
(start, end) slice of the tensor by the given vector. -/
def write_edge (m : ℕ → ℕ → ℕ → ℝ) (i j : ℕ) (v : ℕ → ℝ) : ℕ → ℕ → ℕ → ℝ :=
  fun a b => if a = i ∧ b = j then v else m a b

/-- GraphEncoder._compose_messages_from_nodes_to_targets: start from
np.zeros_like(messages) and, for node_id in range(N) and end_node_id in
node.neighbors, write the composed message into the new tensor's edge slice. -/
def compose_messages_from_nodes_to_targets (e : GraphEncoder) (g : Graph)
    (messages : ℕ → ℕ → ℕ → ℝ) : ℕ → ℕ → ℕ → ℝ :=
  (List.range g.number_of_nodes).foldl
    (fun acc node_id =>
      (g.neighbors node_id).foldl
        (fun m end_node_id =>
          write_edge m node_id end_node_id
            ((get_message_inputs e g messages node_id end_node_id).compose))
        acc)
    (fun _ _ _ => 0)

/-- The messages tensor after t rounds of GraphEncoder._send_messages's loop:
zeros[N, N, F] at t = 0, then one full recomposition per round. -/
def messages_after (e : GraphEncoder) (g : Graph) : ℕ → (ℕ → ℕ → ℕ → ℝ)
  | 0 => fun _ _ _ => 0
  | t + 1 => compose_messages_from_nodes_to_targets e g (messages_after e g t)

/-- GraphEncoder._send_messages: initialize the messages tensor to zeros and
run the composition loop time_steps times. -/
def send_messages (e : GraphEncoder) (g : Graph) : ℕ → ℕ → ℕ → ℝ :=
  messages_after e g e.time_steps

/-- GraphEncoder._apply_recurrent_layer_for_node:
relu(u_graph_node_features[node] . node_features[node] +
u_graph_neighbor_messages[node] . sum over j of messages[node, j, :]). -/
def apply_recurrent_layer_for_node (e : GraphEncoder) (g : Graph)
    (messages : ℕ → ℕ → ℕ → ℝ) (node_id : ℕ) : ℕ → ℝ :=
  fun f => relu
    (matVec g.number_of_node_features (e.u_graph_node_features node_id)
        (g.features node_id) f
      + matVec g.number_of_node_features (e.u_graph_neighbor_messages node_id)
        (fun k => ∑ j ∈ Finset.range g.number_of_nodes, messages node_id j k) f)

/-- GraphEncoder._encode_nodes: np.zeros(node_features.shape), then for
node_id in range(N) add the recurrent-layer row into row node_id. -/
def encode_nodes (e : GraphEncoder) (g : Graph)
    (messages : ℕ → ℕ → ℕ → ℝ) : NDArray2 :=
  ⟨g.node_features.rows, g.node_features.cols,
   (List.range g.number_of_nodes).foldl
     (fun acc node_id => fun a f =>
       if a = node_id then acc a f + apply_recurrent_layer_for_node e g messages node_id f
       else acc a f)
     (fun _ _ => 0)⟩

/-- GraphEncoder.encode: send messages, then encode the nodes. -/
def GraphEncoder.encode (e : GraphEncoder) (g : Graph) : NDArray2 :=
  encode_nodes e g (send_messages e g)

end

end MessagePassingNN

namespace MessagePassingNN

/-
  Characterizations of the three Python loops as pointwise descriptions.
-/

/-- The inner write loop of the composition step: after folding the writes for
a fixed start node i over a list of end nodes, the tensor holds the written
value at (i, b) for every b in the list and is unchanged elsewhere. -/
theorem foldl_write_inner (i : ℕ) (v : ℕ → ℕ → ℝ) :
    ∀ (L : List ℕ) (acc : ℕ → ℕ → ℕ → ℝ) (a b : ℕ),
      (L.foldl (fun m j => write_edge m i j (v j)) acc) a b
        = if a = i ∧ b ∈ L then v b else acc a b := by
  intro L
  induction L with
  | nil =>
      intro acc a b
      simp
  | cons j tl ih =>
      intro acc a b
      rw [List.foldl_cons, ih]
      by_cases h1 : a = i
      · subst h1
        by_cases h2 : b ∈ tl
        · simp [h2]
        · by_cases h3 : b = j
          · subst h3
            simp [h2, write_edge]
          · simp [h2, h3, write_edge]
      · simp [h1, write_edge]

/-- The outer write loop of the composition step: after folding over a list of
start nodes, the tensor holds, at (a, b), the value written for edge (a, b)
whenever a is in the list and b is one of a's end nodes, and is unchanged
elsewhere. -/
theorem foldl_write_outer (nbr : ℕ → List ℕ) (v : ℕ → ℕ → ℕ → ℝ) :
    ∀ (LI : List ℕ) (acc : ℕ → ℕ → ℕ → ℝ) (a b : ℕ),
      (LI.foldl
          (fun acc2 i => (nbr i).foldl (fun m j => write_edge m i j (v i j)) acc2)
          acc) a b
        = if a ∈ LI ∧ b ∈ nbr a then v a b else acc a b := by
  intro LI
  induction LI with
  | nil =>
      intro acc a b
      simp
  | cons i tl ih =>
      intro acc a b
      rw [List.foldl_cons, ih, foldl_write_inner]
      by_cases h1 : a ∈ tl ∧ b ∈ nbr a
      · simp [h1.1, h1.2]
      · by_cases h2 : a = i
        · subst h2
          by_cases h3 : b ∈ nbr a
          · simp [h3]
          · simp [h3, h1]
        · simp only [List.mem_cons]
          have hcond : ¬ ((a = i ∨ a ∈ tl) ∧ b ∈ nbr a) := by
            tauto
          simp [h1, h2, hcond]

/-- Pointwise description of one composition round: entry (a, b) of the new
tensor is the composed message when a is a node id and b one of its neighbors,
and zero otherwise. -/
theorem compose_messages_apply (e : GraphEncoder) (g : Graph)
    (messages : ℕ → ℕ → ℕ → ℝ) (a b : ℕ) :
    compose_messages_from_nodes_to_targets e g messages a b
      = if a < g.number_of_nodes ∧ b ∈ g.neighbors a
        then (get_message_inputs e g messages a b).compose
        else fun _ => 0 := by
  unfold compose_messages_from_nodes_to_targets
  funext f
  rw [show ((List.range g.number_of_nodes).foldl
      (fun acc node_id =>
        (g.neighbors node_id).foldl
          (fun m end_node_id =>
            write_edge m node_id end_node_id
              ((get_message_inputs e g messages node_id end_node_id).compose)) acc)
      (fun _ _ _ => 0)) a b
    = if a ∈ List.range g.number_of_nodes ∧ b ∈ g.neighbors a
      then (get_message_inputs e g messages a b).compose
      else (fun _ _ _ => (0:ℝ)) a b from
      foldl_write_outer g.neighbors
        (fun i j => (get_message_inputs e g messages i j).compose)
        (List.range g.number_of_nodes) (fun _ _ _ => 0) a b]
  simp [List.mem_range]

/-- The accumulation loop of _keep_or_reset_messages as a list sum. -/
theorem foldl_vec_add (w : ℕ → ℕ → ℝ) :
    ∀ (L : List ℕ) (init : ℕ → ℝ),
      (L.foldl (fun acc k => fun f => acc f + w k f) init)
        = fun f => init f + (L.map (fun k => w k f)).sum := by
  intro L
  induction L with
  | nil =>
      intro init
      funext f
      simp
  | cons k tl ih =>
      intro init
      rw [List.foldl_cons, ih]
      funext f
      simp [add_assoc]

/-- The row loop of _encode_nodes: starting from a tensor and adding, for each
node id in a duplicate-free list, the node's row, yields the original entry
plus the row value exactly on the listed rows. -/
theorem foldl_row_update (v : ℕ → ℕ → ℝ) :
    ∀ (L : List ℕ), L.Nodup → ∀ (init : ℕ → ℕ → ℝ) (a f : ℕ),
      (L.foldl
          (fun acc node_id => fun x y =>
            if x = node_id then acc x y + v node_id y else acc x y)
          init) a f
        = init a f + (if a ∈ L then v a f else 0) := by
  intro L
  induction L with
  | nil =>
      intro _ init a f
      simp
  | cons i tl ih =>
      intro hnd init a f
      rw [List.foldl_cons, ih hnd.of_cons]
      by_cases h1 : a = i
      · subst h1
        have hnotin : a ∉ tl := (List.nodup_cons.mp hnd).1
        simp [hnotin]
      · simp [h1, List.mem_cons]

/-- Pointwise description of _encode_nodes: row a of the output is the
recurrent-layer row for a when a < N, and zero otherwise. -/
theorem encode_nodes_entry (e : GraphEncoder) (g : Graph)
    (messages : ℕ → ℕ → ℕ → ℝ) (a f : ℕ) :
    (encode_nodes e g messages).entry a f
      = if a < g.number_of_nodes
        then apply_recurrent_layer_for_node e g messages a f
        else 0 := by
  unfold encode_nodes
  have h := foldl_row_update
    (fun node_id y => apply_recurrent_layer_for_node e g messages node_id y)
    (List.range g.number_of_nodes) (List.nodup_range _)
    (fun _ _ => 0) a f
  simp only [NDArray2.entry] at h ⊢
  rw [h]
  simp [List.mem_range]

/-- Entries of the messages tensor at non-neighbor index pairs are the zero
vector after every number of rounds. -/
theorem messages_after_zero (e : GraphEncoder) (g : Graph) (t i j : ℕ)
    (h : ¬ (i < g.number_of_nodes ∧ j ∈ g.neighbors i)) :
    messages_after e g t i j = fun _ => 0 := by
  cases t with
  | zero => rfl
  | succ t =>
      show compose_messages_from_nodes_to_targets e g (messages_after e g t) i j
        = fun _ => 0
      rw [compose_messages_apply]
      simp [h]

/-- Applying a matrix slice to the zero vector yields the zero vector. -/
theorem matVec_zero (fdim : ℕ) (M : ℕ → ℕ → ℝ) :
    matVec fdim M (fun _ => 0) = fun _ => 0 := by
  funext r
  simp [matVec]

/-- The logistic sigmoid of the source is strictly monotone, hence injective
on distinct inputs. -/
theorem sigmoid_lt_sigmoid {x y : ℝ} (h : x < y) : sigmoid x < sigmoid y := by
  unfold sigmoid
  have hx : (0:ℝ) < Real.exp x + 1 := by positivity
  have hy : (0:ℝ) < Real.exp y + 1 := by positivity
  rw [div_lt_div_iff₀ hx hy]
  have hxy : Real.exp x < Real.exp y := Real.exp_lt_exp.2 h
  nlinarith [hxy]

end MessagePassingNN

namespace MessagePassingNN

/-- When the end node is actually a neighbor of the start node, the "zero
vector unless more than one neighbor" branch collapses: the summed messages
from the other neighbors always equal the sum over the filtered neighbor
list (that list is empty when the target is the only neighbor). -/
theorem get_messages_summed_eq (g : Graph) (messages : ℕ → ℕ → ℕ → ℝ)
    (i j : ℕ) (hj : j ∈ g.neighbors i) :
    get_messages_from_all_node_neighbors_except_target_summed g messages i j
      = fun f => ((start_node_neighbors_without_end_node g i j).map
          (fun k => messages i k f)).sum := by
  unfold get_messages_from_all_node_neighbors_except_target_summed
  by_cases h : 1 < g.neighbors_count i
  · simp [h]
  · have hpos : 0 < (g.neighbors i).length :=
      List.length_pos.mpr (List.ne_nil_of_mem hj)
    have hlen : (g.neighbors i).length = 1 := by
      have hle : (g.neighbors i).length ≤ 1 := not_lt.mp h
      omega
    obtain ⟨a, ha⟩ := List.length_eq_one.mp hlen
    have hja : j = a := by
      rw [ha] at hj
      simpa using hj
    subst hja
    have hfil : start_node_neighbors_without_end_node g i j = [] := by
      unfold start_node_neighbors_without_end_node
      rw [ha]
      simp
    rw [if_neg h, hfil]
    funext f
    simp

/-- When the start node's neighbor list is exactly [j], the filtered list of
other neighbors is empty. -/
theorem start_node_neighbors_empty_of_single (g : Graph) (i j : ℕ)
    (hnb : g.neighbors i = [j]) :
    start_node_neighbors_without_end_node g i j = [] := by
  unfold start_node_neighbors_without_end_node
  rw [hnb]
  simp

/-- The accumulation inside _keep_or_reset_messages spelled as a list sum. -/
theorem keep_or_reset_messages_eq (e : GraphEncoder) (g : Graph)
    (messages : ℕ → ℕ → ℕ → ℝ) (i j : ℕ) :
    keep_or_reset_messages e g messages i j
      = matVec g.number_of_node_features
          (e.u_gru_current_memory_message (edge_slice i j))
          (fun f => ((start_node_neighbors_without_end_node g i j).map
            (fun k => pass_through_reset_gate e g messages i k f * messages i k f)).sum) := by
  unfold keep_or_reset_messages
  rw [foldl_vec_add]
  simp only [zero_add]

/-
  Concrete instances used by the counterexample and the witnesses.
-/

/-- The all-zero messages tensor. -/
def zero_messages : ℕ → ℕ → ℕ → ℝ := fun _ _ _ => 0

/-- A two-node, one-feature graph with the directed edges 0 -> 1 and 1 -> 0,
and all node features equal to 1. -/
def G0 : Graph :=
  ⟨2, 1, ⟨2, 1, fun _ _ => 1⟩,
   fun i => if i = 0 then [1] else if i = 1 then [0] else []⟩

/-- An encoder (time_steps = 1) whose update-gate feature tensor has slice 1
at edge (0, 1) and slice 0 everywhere else; every other tensor is zero. -/
def E0 : GraphEncoder :=
  ⟨1,
   fun es _ _ => if es = (0, 1) then 1 else 0,
   fun _ _ _ => 0,
   fun _ _ _ => 0,
   fun _ _ _ => 0,
   fun _ _ _ => 0,
   fun _ _ _ => 0,
   fun _ => 0,
   fun _ => 0,
   fun _ => 0,
   fun _ _ _ => 0,
   fun _ _ _ => 0⟩

/-- An encoder (time_steps = 1) with every tensor zero. -/
def EZ : GraphEncoder :=
  ⟨1,
   fun _ _ _ => 0,
   fun _ _ _ => 0,
   fun _ _ _ => 0,
   fun _ _ _ => 0,
   fun _ _ _ => 0,
   fun _ _ _ => 0,
   fun _ => 0,
   fun _ => 0,
   fun _ => 0,
   fun _ _ _ => 0,
   fun _ _ _ => 0⟩

/-- A one-node, one-feature graph whose single node has no neighbors. -/
def Giso : Graph :=
  ⟨1, 1, ⟨1, 1, fun _ _ => 1⟩, fun _ => []⟩

/-- A degenerate graph with zero nodes (node_features has shape (0, 1)). -/
def Gempty : Graph :=
  ⟨0, 1, ⟨0, 1, fun _ _ => 0⟩, fun _ => []⟩

end MessagePassingNN

namespace MessagePassingNN

/-- Claim C2: for every directed edge (node -> end_node) and any messages
tensor (hence at every round), the update gate equals
sigmoid(W_update . node.features + U_update . previous_messages + b_update),
where previous_messages is the sum over all neighbors k of the node except
the end node of messages[node, k, :], and is the zero vector when the node
has exactly one neighbor; W_update and U_update enter through the edge's
slice of the shared tensors and b_update is the shared bias vector. -/
theorem update_gate_formula (e : GraphEncoder) (g : Graph)
    (messages : ℕ → ℕ → ℕ → ℝ) (i j : ℕ) (hj : j ∈ g.neighbors i) :
    (pass_through_update_gate e g messages i j
      = fun f => sigmoid
          (matVec g.number_of_node_features
              (e.w_gru_update_gate_features (edge_slice i j)) (g.features i) f
            + matVec g.number_of_node_features
              (e.u_gru_update_gate (edge_slice i j))
              (fun f2 => ((start_node_neighbors_without_end_node g i j).map
                (fun k => messages i k f2)).sum) f
            + e.b_gru_update_gate f))
    ∧ (g.neighbors_count i = 1 →
        get_messages_from_all_node_neighbors_except_target_summed
            g messages i j
          = fun _ => 0) := by
  constructor
  · unfold pass_through_update_gate
    rw [get_messages_summed_eq g messages i j hj]
  · intro h1
    unfold get_messages_from_all_node_neighbors_except_target_summed
    rw [h1]
    simp

/-- Witness for claim C2 at the concrete edge 0 -> 1 of G0. -/
theorem update_gate_formula_witness :
    (pass_through_update_gate E0 G0 zero_messages 0 1
      = fun f => sigmoid
          (matVec G0.number_of_node_features
              (E0.w_gru_update_gate_features (edge_slice 0 1)) (G0.features 0) f
            + matVec G0.number_of_node_features
              (E0.u_gru_update_gate (edge_slice 0 1))
              (fun f2 => ((start_node_neighbors_without_end_node G0 0 1).map
                (fun k => zero_messages 0 k f2)).sum) f
            + E0.b_gru_update_gate f))
    ∧ (G0.neighbors_count 0 = 1 →
        get_messages_from_all_node_neighbors_except_target_summed
            G0 zero_messages 0 1
          = fun _ => 0) :=
  update_gate_formula E0 G0 zero_messages 0 1 (by decide)

/-- Claim C3: for every directed edge and any messages tensor, the current
memory equals tanh(W_memory . node.features + U_memory . (U_memory .
reset_weighted_sum) + b_memory) — the U_memory slice is applied exactly
twice — where reset_weighted_sum accumulates reset_gate_k * messages[node, k, :]
over the node's neighbors k other than the end node, and each reset gate is
computed with the update-gate weight triple (there is no separate reset-gate
parameter set). -/
theorem current_memory_formula (e : GraphEncoder) (g : Graph)
    (messages : ℕ → ℕ → ℕ → ℝ) (i j : ℕ) :
    (get_current_memory_message e g messages i j
      = fun f => tanh
          (matVec g.number_of_node_features
              (e.w_gru_current_memory_message_features (edge_slice i j))
              (g.features i) f
            + matVec g.number_of_node_features
              (e.u_gru_current_memory_message (edge_slice i j))
              (matVec g.number_of_node_features
                (e.u_gru_current_memory_message (edge_slice i j))
                (fun f2 => ((start_node_neighbors_without_end_node g i j).map
                  (fun k => pass_through_reset_gate e g messages i k f2
                    * messages i k f2)).sum)) f
            + e.b_gru_current_memory_message f))
    ∧ ∀ k, pass_through_reset_gate e g messages i k
        = fun f => sigmoid
            (matVec g.number_of_node_features
                (e.w_gru_update_gate_features (edge_slice i k)) (g.features i) f
              + matVec g.number_of_node_features
                (e.u_gru_update_gate (edge_slice i k)) (messages i k) f
              + e.b_gru_update_gate f) := by
  constructor
  · unfold get_current_memory_message
    rw [keep_or_reset_messages_eq]
  · intro k
    rfl

/-- Claim C4: for every directed edge of the graph and any messages tensor,
the value the composition round writes into the new tensor at the edge's
(start_node, end_node) slice is the GRU interpolation
(1 - update_gate) * previous_messages + update_gate * current_memory of the
three fields set on the message carrier. -/
theorem composed_message_written (e : GraphEncoder) (g : Graph)
    (messages : ℕ → ℕ → ℕ → ℝ) (i j : ℕ)
    (hi : i < g.number_of_nodes) (hj : j ∈ g.neighbors i) :
    compose_messages_from_nodes_to_targets e g messages i j
      = fun f =>
          (1 - pass_through_update_gate e g messages i j f)
            * get_messages_from_all_node_neighbors_except_target_summed
                g messages i j f
          + pass_through_update_gate e g messages i j f
            * get_current_memory_message e g messages i j f := by
  rw [compose_messages_apply, if_pos ⟨hi, hj⟩]
  rfl

/-- Witness for claim C4 at the concrete edge 0 -> 1 of G0. -/
theorem composed_message_written_witness :
    compose_messages_from_nodes_to_targets E0 G0 zero_messages 0 1
      = fun f =>
          (1 - pass_through_update_gate E0 G0 zero_messages 0 1 f)
            * get_messages_from_all_node_neighbors_except_target_summed
                G0 zero_messages 0 1 f
          + pass_through_update_gate E0 G0 zero_messages 0 1 f
            * get_current_memory_message E0 G0 zero_messages 0 1 f :=
  composed_message_written E0 G0 zero_messages 0 1 (by decide) (by decide)

/-- Claim C5: the messages tensor starts as zeros, each round writes only the
slices of actual (node, neighbor) pairs into a fresh zero tensor and replaces
the previous tensor, so after every number of rounds — including zero — the
entry [i, j, :] is exactly the zero vector whenever j is not a neighbor of i;
in particular this holds for the tensor _send_messages returns. -/
theorem non_neighbor_entries_zero (e : GraphEncoder) (g : Graph) (t i j : ℕ)
    (h : j ∉ g.neighbors i) :
    messages_after e g t i j = (fun _ => 0)
    ∧ send_messages e g i j = (fun _ => 0) :=
  ⟨messages_after_zero e g t i j (fun hc => h hc.2),
   messages_after_zero e g e.time_steps i j (fun hc => h hc.2)⟩

/-- Witness for claim C5 at the non-edge (0, 0) of G0 after one round. -/
theorem non_neighbor_entries_zero_witness :
    messages_after E0 G0 1 0 0 = (fun _ => 0)
    ∧ send_messages E0 G0 0 0 = (fun _ => 0) :=
  non_neighbor_entries_zero E0 G0 1 0 0 (by decide)

/-- Claim C7: for every encoder and every graph — in particular for every
graph meeting the spec's preconditions — the matrix returned by encode has
exactly the same shape as graph.node_features. -/
theorem encode_shape (e : GraphEncoder) (g : Graph) :
    (e.encode g).shape = g.node_features.shape := rfl

/-- Claim C9: for a graph whose node_features matrix has zero rows (no nodes)
or zero columns (no features), encode returns an empty matrix of the same
degenerate shape; encode is a total function with no validation branch, so it
returns a complete matrix rather than a partial result or a typed error. -/
theorem degenerate_graph_empty_output (e : GraphEncoder) (g : Graph)
    (h : g.node_features.rows = 0 ∨ g.node_features.cols = 0) :
    (e.encode g).shape = g.node_features.shape
    ∧ ((e.encode g).rows = 0 ∨ (e.encode g).cols = 0) := by
  refine ⟨rfl, ?_⟩
  cases h with
  | inl h0 => exact Or.inl h0
  | inr h0 => exact Or.inr h0

/-- Witness for claim C9 on the zero-node graph Gempty. -/
theorem degenerate_graph_empty_output_witness :
    (EZ.encode Gempty).shape = Gempty.node_features.shape
    ∧ ((EZ.encode Gempty).rows = 0 ∨ (EZ.encode Gempty).cols = 0) :=
  degenerate_graph_empty_output EZ Gempty (Or.inl rfl)

end MessagePassingNN

namespace MessagePassingNN

/-- Claim C6: for every node id i below the node count, the output encoding
row equals ReLU(U_node_features[i] . node.features + U_neighbor_messages[i] .
(sum over j of messages[i, j, :])), where the sum fixes the first index of the
final messages tensor to i, i.e. ranges over the messages sent from node i. -/
theorem node_encoding_formula (e : GraphEncoder) (g : Graph) (i : ℕ)
    (hi : i < g.number_of_nodes) :
    (e.encode g).entry i
      = fun f => relu
          (matVec g.number_of_node_features (e.u_graph_node_features i)
              (g.features i) f
            + matVec g.number_of_node_features (e.u_graph_neighbor_messages i)
              (fun k => ∑ j ∈ Finset.range g.number_of_nodes,
                send_messages e g i j k) f) := by
  funext f
  rw [show (e.encode g).entry i f
      = (encode_nodes e g (send_messages e g)).entry i f from rfl,
    encode_nodes_entry, if_pos hi]
  rfl

/-- Witness for claim C6 at node 0 of G0. -/
theorem node_encoding_formula_witness :
    (E0.encode G0).entry 0
      = fun f => relu
          (matVec G0.number_of_node_features (E0.u_graph_node_features 0)
              (G0.features 0) f
            + matVec G0.number_of_node_features (E0.u_graph_neighbor_messages 0)
              (fun k => ∑ j ∈ Finset.range G0.number_of_nodes,
                send_messages E0 G0 0 j k) f) :=
  node_encoding_formula E0 G0 0 (by decide)

/-- Claim C8: a node with an empty neighbor list keeps an all-zero outgoing
message row through every round (for any number of time steps), so its final
encoding is exactly ReLU(U_node_features[i] . node.features), with no message
contribution. -/
theorem isolated_node_encoding (e : GraphEncoder) (g : Graph) (i : ℕ)
    (hi : i < g.number_of_nodes) (h0 : g.neighbors i = []) :
    ((e.encode g).entry i
      = fun f => relu
          (matVec g.number_of_node_features (e.u_graph_node_features i)
            (g.features i) f))
    ∧ ∀ t j, messages_after e g t i j = (fun _ => 0) := by
  have hz : ∀ t j, messages_after e g t i j = (fun _ => 0) := by
    intro t j
    apply messages_after_zero
    intro hc
    rw [h0] at hc
    exact absurd hc.2 (List.not_mem_nil j)
  refine ⟨?_, hz⟩
  funext f
  rw [show (e.encode g).entry i f
      = (encode_nodes e g (send_messages e g)).entry i f from rfl,
    encode_nodes_entry, if_pos hi]
  unfold apply_recurrent_layer_for_node
  have hsum : (fun k => ∑ j ∈ Finset.range g.number_of_nodes,
      send_messages e g i j k) = fun _ => (0:ℝ) := by
    funext k
    refine Finset.sum_eq_zero ?_
    intro j _
    rw [show send_messages e g i j = messages_after e g e.time_steps i j from rfl,
      hz e.time_steps j]
  rw [hsum, matVec_zero]
  simp

/-- Witness for claim C8 at the isolated node 0 of Giso. -/
theorem isolated_node_encoding_witness :
    ((EZ.encode Giso).entry 0
      = fun f => relu
          (matVec Giso.number_of_node_features (EZ.u_graph_node_features 0)
            (Giso.features 0) f))
    ∧ ∀ t j, messages_after EZ Giso t 0 j = (fun _ => 0) :=
  isolated_node_encoding EZ Giso 0 (by decide) rfl

/-- Claim C10: for a directed edge whose start node has exactly one neighbor
(necessarily the end node), the previous-messages sum and the reset-weighted
memory input are zero vectors, the update gate reduces to
sigmoid(W_update[edge] . node.features + b_update), the current memory reduces
to tanh(W_memory[edge] . node.features + b_memory), the composed message is
independent of the messages tensor, and every round from the first one on
produces this same message at the edge's slice. -/
theorem single_neighbor_constant_message (e : GraphEncoder) (g : Graph)
    (messages messages2 : ℕ → ℕ → ℕ → ℝ) (i j : ℕ)
    (hi : i < g.number_of_nodes) (hnb : g.neighbors i = [j]) :
    (get_messages_from_all_node_neighbors_except_target_summed g messages i j
      = (fun _ => 0))
    ∧ (keep_or_reset_messages e g messages i j = (fun _ => 0))
    ∧ (pass_through_update_gate e g messages i j
        = fun f => sigmoid
            (matVec g.number_of_node_features
                (e.w_gru_update_gate_features (edge_slice i j))
                (g.features i) f
              + e.b_gru_update_gate f))
    ∧ (get_current_memory_message e g messages i j
        = fun f => tanh
            (matVec g.number_of_node_features
                (e.w_gru_current_memory_message_features (edge_slice i j))
                (g.features i) f
              + e.b_gru_current_memory_message f))
    ∧ ((get_message_inputs e g messages i j).compose
        = (get_message_inputs e g messages2 i j).compose)
    ∧ ∀ t, messages_after e g (t + 1) i j
        = (get_message_inputs e g zero_messages i j).compose := by
  have hcount : g.neighbors_count i = 1 := by
    unfold Graph.neighbors_count
    rw [hnb]
    rfl
  have hfil : start_node_neighbors_without_end_node g i j = [] :=
    start_node_neighbors_empty_of_single g i j hnb
  have hprev : ∀ m : ℕ → ℕ → ℕ → ℝ,
      get_messages_from_all_node_neighbors_except_target_summed g m i j
        = (fun _ => 0) := by
    intro m
    unfold get_messages_from_all_node_neighbors_except_target_summed
    rw [hcount]
    simp
  have hkeep : ∀ m : ℕ → ℕ → ℕ → ℝ,
      keep_or_reset_messages e g m i j = (fun _ => 0) := by
    intro m
    rw [keep_or_reset_messages_eq, hfil]
    funext r
    simp [matVec]
  have hgate : ∀ m : ℕ → ℕ → ℕ → ℝ,
      pass_through_update_gate e g m i j
        = fun f => sigmoid
            (matVec g.number_of_node_features
                (e.w_gru_update_gate_features (edge_slice i j))
                (g.features i) f
              + e.b_gru_update_gate f) := by
    intro m
    unfold pass_through_update_gate
    rw [hprev m, matVec_zero]
    funext f
    simp
  have hmem : ∀ m : ℕ → ℕ → ℕ → ℝ,
      get_current_memory_message e g m i j
        = fun f => tanh
            (matVec g.number_of_node_features
                (e.w_gru_current_memory_message_features (edge_slice i j))
                (g.features i) f
              + e.b_gru_current_memory_message f) := by
    intro m
    unfold get_current_memory_message
    rw [hkeep m, matVec_zero]
    funext f
    simp
  have hcomp : ∀ m1 m2 : ℕ → ℕ → ℕ → ℝ,
      (get_message_inputs e g m1 i j).compose
        = (get_message_inputs e g m2 i j).compose := by
    intro m1 m2
    funext f
    show (1 - pass_through_update_gate e g m1 i j f)
          * get_messages_from_all_node_neighbors_except_target_summed g m1 i j f
        + pass_through_update_gate e g m1 i j f
          * get_current_memory_message e g m1 i j f
      = (1 - pass_through_update_gate e g m2 i j f)
          * get_messages_from_all_node_neighbors_except_target_summed g m2 i j f
        + pass_through_update_gate e g m2 i j f
          * get_current_memory_message e g m2 i j f
    rw [hprev m1, hprev m2, hgate m1, hgate m2, hmem m1, hmem m2]
  refine ⟨hprev messages, hkeep messages, hgate messages, hmem messages,
    hcomp messages messages2, ?_⟩
  intro t
  rw [show messages_after e g (t + 1) i j
      = compose_messages_from_nodes_to_targets e g (messages_after e g t) i j
      from rfl,
    compose_messages_apply,
    if_pos ⟨hi, by rw [hnb]; exact List.mem_singleton_self j⟩]
  exact hcomp (messages_after e g t) zero_messages

/-- Witness for claim C10 at the edge 0 -> 1 of G0, whose start node 0 has the
single neighbor 1. -/
theorem single_neighbor_constant_message_witness :
    (get_messages_from_all_node_neighbors_except_target_summed
        G0 zero_messages 0 1
      = (fun _ => 0))
    ∧ (keep_or_reset_messages E0 G0 zero_messages 0 1 = (fun _ => 0))
    ∧ (pass_through_update_gate E0 G0 zero_messages 0 1
        = fun f => sigmoid
            (matVec G0.number_of_node_features
                (E0.w_gru_update_gate_features (edge_slice 0 1))
                (G0.features 0) f
              + E0.b_gru_update_gate f))
    ∧ (get_current_memory_message E0 G0 zero_messages 0 1
        = fun f => tanh
            (matVec G0.number_of_node_features
                (E0.w_gru_current_memory_message_features (edge_slice 0 1))
                (G0.features 0) f
              + E0.b_gru_current_memory_message f))
    ∧ ((get_message_inputs E0 G0 zero_messages 0 1).compose
        = (get_message_inputs E0 G0 zero_messages 0 1).compose)
    ∧ ∀ t, messages_after E0 G0 (t + 1) 0 1
        = (get_message_inputs E0 G0 zero_messages 0 1).compose :=
  single_neighbor_constant_message E0 G0 zero_messages zero_messages 0 1
    (by decide) (by decide)

end MessagePassingNN

namespace MessagePassingNN

/-- Claim C1 is refuted: on G0 the two directed edges 0 -> 1 and 1 -> 0 have
identical node features, and the messages tensor is identically zero, yet the
update gates differ, because the gate computation reads the update-gate
feature tensor at the edge's slice (slice (0, 1) holds 1, slice (1, 0) holds
0): the gate computations do not use one identical weight matrix for every
edge but per-edge parameter slices. -/
theorem update_gate_uses_per_edge_slices :
    G0.features 0 = G0.features 1
    ∧ pass_through_update_gate E0 G0 zero_messages 0 1 0
      ≠ pass_through_update_gate E0 G0 zero_messages 1 0 0 := by
  refine ⟨rfl, ?_⟩
  have h1 : pass_through_update_gate E0 G0 zero_messages 0 1 0 = sigmoid 1 := by
    norm_num [pass_through_update_gate,
      get_messages_from_all_node_neighbors_except_target_summed,
      Graph.neighbors_count, Graph.features, matVec, edge_slice, G0, E0,
      zero_messages, Finset.sum_range_one]
  have h2 : pass_through_update_gate E0 G0 zero_messages 1 0 0 = sigmoid 0 := by
    norm_num [pass_through_update_gate,
      get_messages_from_all_node_neighbors_except_target_summed,
      Graph.neighbors_count, Graph.features, matVec, edge_slice, G0, E0,
      zero_messages, Finset.sum_range_one]
  rw [h1, h2]
  exact (sigmoid_lt_sigmoid (by norm_num : (0:ℝ) < 1)).ne'

/-- Claim C1 (amended): the encoder's tensors are fixed fields, so the same
nine tensors parametrize every edge at every time step and the unsliced bias
vectors are used identically by all edges, but the weight and recurrent
matrices enter each gate computation only through the edge's slice: whenever
two directed edges agree on the relevant tensor slices and on their inputs,
their update-gate, reset-gate, and current-memory computations agree. -/
theorem gate_parameters_shared_through_slices (e : GraphEncoder) (g : Graph)
    (messages : ℕ → ℕ → ℕ → ℝ) (i j i2 j2 k k2 : ℕ)
    (hfeat : g.features i = g.features i2) :
    ((e.w_gru_update_gate_features (edge_slice i j)
        = e.w_gru_update_gate_features (edge_slice i2 j2))
      → (e.u_gru_update_gate (edge_slice i j)
          = e.u_gru_update_gate (edge_slice i2 j2))
      → (get_messages_from_all_node_neighbors_except_target_summed
            g messages i j
          = get_messages_from_all_node_neighbors_except_target_summed
            g messages i2 j2)
      → pass_through_update_gate e g messages i j
          = pass_through_update_gate e g messages i2 j2)
    ∧ ((e.w_gru_update_gate_features (edge_slice i k)
        = e.w_gru_update_gate_features (edge_slice i2 k2))
      → (e.u_gru_update_gate (edge_slice i k)
          = e.u_gru_update_gate (edge_slice i2 k2))
      → (messages i k = messages i2 k2)
      → pass_through_reset_gate e g messages i k
          = pass_through_reset_gate e g messages i2 k2)
    ∧ ((e.w_gru_current_memory_message_features (edge_slice i j)
        = e.w_gru_current_memory_message_features (edge_slice i2 j2))
      → (e.u_gru_current_memory_message (edge_slice i j)
          = e.u_gru_current_memory_message (edge_slice i2 j2))
      → (keep_or_reset_messages e g messages i j
          = keep_or_reset_messages e g messages i2 j2)
      → get_current_memory_message e g messages i j
          = get_current_memory_message e g messages i2 j2) := by
  refine ⟨?_, ?_, ?_⟩
  · intro hw hu hm
    unfold pass_through_update_gate
    funext f
    rw [hw, hu, hfeat, hm]
  · intro hw hu hm
    unfold pass_through_reset_gate
    funext f
    rw [hw, hu, hfeat, hm]
  · intro hw hu hm
    unfold get_current_memory_message
    funext f
    rw [hw, hu, hfeat, hm]

/-- Witness for the amended claim C1, at the two edges 0 -> 1 and 1 -> 0 of G0
under the all-zero encoder EZ (all slice and input hypotheses hold). -/
theorem gate_parameters_shared_through_slices_witness :
    ((EZ.w_gru_update_gate_features (edge_slice 0 1)
        = EZ.w_gru_update_gate_features (edge_slice 1 0))
      → (EZ.u_gru_update_gate (edge_slice 0 1)
          = EZ.u_gru_update_gate (edge_slice 1 0))
      → (get_messages_from_all_node_neighbors_except_target_summed
            G0 zero_messages 0 1
          = get_messages_from_all_node_neighbors_except_target_summed
            G0 zero_messages 1 0)
      → pass_through_update_gate EZ G0 zero_messages 0 1
          = pass_through_update_gate EZ G0 zero_messages 1 0)
    ∧ ((EZ.w_gru_update_gate_features (edge_slice 0 1)
        = EZ.w_gru_update_gate_features (edge_slice 1 0))
      → (EZ.u_gru_update_gate (edge_slice 0 1)
          = EZ.u_gru_update_gate (edge_slice 1 0))
      → (zero_messages 0 1 = zero_messages 1 0)
      → pass_through_reset_gate EZ G0 zero_messages 0 1
          = pass_through_reset_gate EZ G0 zero_messages 1 0)
    ∧ ((EZ.w_gru_current_memory_message_features (edge_slice 0 1)
        = EZ.w_gru_current_memory_message_features (edge_slice 1 0))
      → (EZ.u_gru_current_memory_message (edge_slice 0 1)
          = EZ.u_gru_current_memory_message (edge_slice 1 0))
      → (keep_or_reset_messages EZ G0 zero_messages 0 1
          = keep_or_reset_messages EZ G0 zero_messages 1 0)
      → get_current_memory_message EZ G0 zero_messages 0 1
          = get_current_memory_message EZ G0 zero_messages 1 0) :=
  gate_parameters_shared_through_slices EZ G0 zero_messages 0 1 1 0 1 0 rfl

end MessagePassingNN
